import Mathlib

/-!
Verification development for the adaptive sales-closer policy engine
(src/run.mjs, src/elevenlabs-outbound.mjs, src/llm-evaluator.mjs).

The JavaScript sources are embedded shallowly:
* machine numbers become exact rationals; the source's toFixed(4)/toFixed(2)
  rounding steps become explicit rounding functions round4/round2;
* JSON objects become Lean structures; possibly-absent fields become Option;
* string-keyed maps become association lists with first-match lookup;
* I/O-free logic is translated function by function, keeping the source's
  names; wall-clock timestamps (used only inside history events) are omitted;
* the network calls of the evaluator and the voice dispatcher are modelled by
  oracle parameters describing the outcome of the call, with all code before
  and after the call translated faithfully.
-/

namespace Ruya

/-- Rounding to 4 decimal places, modelling Number(x.toFixed(4)) in the
source (idealized round-half-up on the exact rational value). -/
def round4 (q : ℚ) : ℚ := (Rat.floor (q * 10000 + 1 / 2) : ℚ) / 10000

/-- Rounding to 2 decimal places, modelling Number(x.toFixed(2)). -/
def round2 (q : ℚ) : ℚ := (Rat.floor (q * 100 + 1 / 2) : ℚ) / 100

/-- JS String.prototype.trim: whitespace removed from both ends. -/
def jsTrim (s : String) : String :=
  String.mk (((s.data.dropWhile Char.isWhitespace).reverse.dropWhile
    Char.isWhitespace).reverse)

/-- JS String.prototype.toLowerCase (over the basic Latin range). -/
def jsToLower (s : String) : String := String.mk (s.data.map Char.toLower)

/-- JS String.prototype.slice(0, n). -/
def jsTake (s : String) (n : ℕ) : String := String.mk (s.data.take n)

/-- Whether the first character list starts with the second. -/
def startsWithChars : List Char → List Char → Bool
  | _, [] => true
  | [], _ :: _ => false
  | a :: as, b :: bs => b = a && startsWithChars as bs

/-- Whether pat occurs contiguously inside s (JS String.prototype.includes). -/
def containsChars (pat : List Char) : List Char → Bool
  | [] => startsWithChars [] pat
  | c :: rest => startsWithChars (c :: rest) pat || containsChars pat rest

/-- The strategy catalog, src/run.mjs line 15. -/
def STRATEGIES : List String := ["consultative", "social_proof", "urgent_offer"]

/-- The recognized text channels, src/run.mjs line 16. -/
def TEXT_CHANNELS : List String := ["instagram_dm", "whatsapp"]

/-- Lead input record (the fields the core logic reads).  Fields that a JSON
record may lack (or hold a non-string in) are Option-valued. -/
structure Lead where
  id : String
  name : String
  goal : String
  objectionType : String
  sentiment : Option String
  channel : Option String
  phoneNumber : Option String
deriving DecidableEq

/-- Result of evaluating one (lead, strategy, response) candidate. -/
structure EvalResult where
  score : ℚ
  conversionProbability : ℚ
  source : String
  notes : Option String
deriving DecidableEq

/-- Per-strategy statistics, memory.strategyStats entries. -/
structure StrategyStats where
  uses : ℕ
  totalScore : ℚ
  avgScore : ℚ
deriving DecidableEq

/-- memory.policy: the exploration-rate triple. -/
structure Policy where
  epsilon : ℚ
  decay : ℚ
  minEpsilon : ℚ
deriving DecidableEq

/-- One memory.history entry (src/run.mjs lines 95-104); the wall-clock
timestamp field is omitted from the model. -/
structure HistoryEvent where
  epoch : ℕ
  leadId : String
  objectionType : String
  strategy : String
  score : ℚ
  conversionProbability : ℚ
  responsePreview : String
deriving DecidableEq

/-- The persistent policy memory (data/memory.json). objectionPolicy is a
string-keyed map, modelled as an association list with first-match lookup. -/
structure Memory where
  runs : ℕ
  policy : Policy
  strategyStats : String → StrategyStats
  objectionPolicy : List (String × String)
  history : List HistoryEvent

/-- First-match lookup in a string-keyed association list (JS object read). -/
def polLookup (key : String) : List (String × String) → Option String
  | [] => none
  | (k, v) :: rest => if k = key then some v else polLookup key rest

/-- getAverage, src/run.mjs lines 55-57. -/
def getAverage (stats : StrategyStats) : ℚ :=
  if 0 < stats.uses then stats.totalScore / stats.uses else 0

/-- The highest-average scan of pickBestStrategy (src/run.mjs lines 63-72):
best starts at the first catalog entry with bestScore -Infinity (modelled as
none), and a candidate replaces it only when strictly greater. -/
def bestByAvg (m : Memory) : String :=
  (STRATEGIES.foldl
    (fun acc s =>
      let avg := (m.strategyStats s).avgScore
      match acc.2 with
      | none => (s, some avg)
      | some b => if b < avg then (s, some avg) else acc)
    (STRATEGIES.headD "", (none : Option ℚ))).1

/-- pickBestStrategy, src/run.mjs lines 59-73. -/
def pickBestStrategy (m : Memory) (objectionType : String) : String :=
  match polLookup objectionType m.objectionPolicy with
  | some mapped => if mapped ∈ STRATEGIES then mapped else bestByAvg m
  | none => bestByAvg m

/-- pickWarmupStrategy, src/run.mjs lines 75-77. -/
def pickWarmupStrategy (index : ℕ) : String :=
  STRATEGIES.getD (index % STRATEGIES.length) ""

/-- The per-lead strategy choice of the orchestrator, src/run.mjs line 195:
during warm-up the position within the round indexes the catalog, afterwards
the learned policy decides. -/
def select (m : Memory) (objectionType : String) (epoch warmupEpochs eventsLength : ℕ) :
    String :=
  if epoch ≤ warmupEpochs then pickWarmupStrategy eventsLength
  else pickBestStrategy m objectionType

/-- The best-candidate scan of updateMemory (src/run.mjs lines 85-92): the
used strategy with its score seeds the accumulator and a candidate replaces
it only when strictly greater. -/
def bestFold (init : String × ℚ) (cands : List (String × EvalResult)) : String × ℚ :=
  cands.foldl (fun acc c => if acc.2 < c.2.score then (c.1, c.2.score) else acc) init

/-- The history entry pushed by updateMemory, src/run.mjs lines 95-104 (the
wall-clock timestamp omitted). -/
def mkHistoryEvent (lead : Lead) (strategy : String) (result : EvalResult)
    (epoch : ℕ) (response : String) : HistoryEvent :=
  { epoch := epoch
    leadId := lead.id
    objectionType := lead.objectionType
    strategy := strategy
    score := result.score
    conversionProbability := result.conversionProbability
    responsePreview := jsTake response 180 }

/-- updateMemory, src/run.mjs lines 79-109. -/
def updateMemory (m : Memory) (lead : Lead) (strategy : String) (result : EvalResult)
    (epoch : ℕ) (response : String) (candidateScores : List (String × EvalResult)) :
    Memory :=
  let stats := m.strategyStats strategy
  let stats1 : StrategyStats :=
    { stats with
        uses := stats.uses + 1
        totalScore := round4 (stats.totalScore + result.score) }
  let stats2 : StrategyStats := { stats1 with avgScore := round4 (getAverage stats1) }
  let bestForLead := (bestFold (strategy, result.score) candidateScores).1
  let event := mkHistoryEvent lead strategy result epoch response
  let history1 := m.history ++ [event]
  { m with
      strategyStats := fun s => if s = strategy then stats2 else m.strategyStats s
      objectionPolicy := (lead.objectionType, bestForLead) :: m.objectionPolicy
      history := if 200 < history1.length then history1.drop (history1.length - 200)
                 else history1 }

/-- decayExploration, src/run.mjs lines 111-116.  The source's ?? defaults
(0.2/0.8/0.05) apply only when a policy field is missing from the JSON; the
model's Policy record always carries the three fields. -/
def decayExploration (m : Memory) : Memory :=
  { m with policy :=
      { m.policy with
          epsilon := round4 (max m.policy.minEpsilon (m.policy.epsilon * m.policy.decay)) } }

/-- shouldEscalateToVoice, src/run.mjs lines 127-139. -/
def shouldEscalateToVoice (lead : Lead) (result : EvalResult)
    (epoch minEpochForVoice : ℕ) : Bool :=
  let channel := jsToLower (lead.channel.getD "")
  let hasTextChannel : Bool := channel ∈ TEXT_CHANNELS
  let hasPhone : Bool := match lead.phoneNumber with
    | some p => 0 < (jsTrim p).length
    | none => false
  let sentiment := jsToLower (lead.sentiment.getD "")
  let frictionSignal : Bool :=
    sentiment = "skeptical" ∨ sentiment = "hesitant" ∨ sentiment = "overwhelmed" ∨
      result.conversionProbability < 0.58
  minEpochForVoice ≤ epoch ∧ hasTextChannel ∧ hasPhone ∧ frictionSignal

/-- normalizeE164Phone, src/elevenlabs-outbound.mjs lines 16-25.  The regex
replace removes parentheses, hyphens and whitespace; the remainder must be a
leading plus sign followed by 8 to 15 digits. -/
def normalizeE164Phone (raw : Option String) : Option String :=
  let trimmed := jsTrim (raw.getD "")
  if trimmed = "" then none
  else
    let cleaned :=
      trimmed.data.filter (fun c => !(c = '(' || c = ')' || c = '-' || c.isWhitespace))
    if cleaned.head? ≠ some '+' then none
    else
      let digits := cleaned.tail
      if !(decide (digits ≠ []) && digits.all Char.isDigit) then none
      else if digits.length < 8 || 15 < digits.length then none
      else some (String.mk ('+' :: digits))

/-- Outcome of a dispatch request as far as the engine observes it before any
network traffic: accepted or not, the reported status, and the to_number the
payload would carry. -/
structure CallAttempt where
  ok : Bool
  status : String
  toNumber : Option String
deriving DecidableEq

/-- The validation prefix of startElevenLabsOutboundCall,
src/elevenlabs-outbound.mjs lines 89-110: an invalid number is rejected with
status INVALID_PHONE before the payload is built or any network call is made;
a valid number proceeds with the normalized number as the payload's
to_number (status SIMULATED in the default dry-run mode). -/
def startOutboundCallValidation (toNumber : Option String) : CallAttempt :=
  match normalizeE164Phone toNumber with
  | none => ⟨false, "INVALID_PHONE", none⟩
  | some n => ⟨true, "SIMULATED", some n⟩

/-- The escalation step of the orchestrator (src/run.mjs lines 213-228 with
the voice channel enabled, its default): a voice call is attempted exactly
when shouldEscalateToVoice holds, and the attempt passes through the
dispatcher's phone validation. -/
def voiceEscalation (lead : Lead) (result : EvalResult)
    (epoch minEpochForVoice : ℕ) : Option CallAttempt :=
  if shouldEscalateToVoice lead result epoch minEpochForVoice then
    some (startOutboundCallValidation lead.phoneNumber)
  else none

/-- Modelled from the spec: the raw validity rule the spec states for a
dispatch request's phone number, in the spec's own words ("must be validated
E.164: leading plus sign, 8-15 digits, no other characters"), applied to the
raw request string.  Used only to compare the spec's rule against the code's
normalizeE164Phone. -/
def specValidE164 (s : String) : Bool :=
  match s.data with
  | c :: ds => c = '+' && decide (ds ≠ []) && ds.all Char.isDigit &&
      decide (8 ≤ ds.length) && decide (ds.length ≤ 15)
  | [] => false

/-- JS String.prototype.includes on character sequences. -/
def strIncludes (s pat : String) : Bool := containsChars pat.data s.data

/-- The nested objectionBoost lookup table of evaluateByRules,
src/llm-evaluator.mjs lines 103-110; none models an absent key. -/
def objectionBoost (objectionType strategy : String) : Option ℚ :=
  match objectionType, strategy with
  | "price", "consultative" => some 1
  | "price", "social_proof" => some 0.7
  | "price", "urgent_offer" => some 0.2
  | "trust", "consultative" => some 0.8
  | "trust", "social_proof" => some 1.2
  | "trust", "urgent_offer" => some 0.2
  | "timing", "consultative" => some 0.6
  | "timing", "social_proof" => some 0.4
  | "timing", "urgent_offer" => some 1.1
  | "results", "consultative" => some 0.7
  | "results", "social_proof" => some 1
  | "results", "urgent_offer" => some 0.3
  | "complexity", "consultative" => some 1.1
  | "complexity", "social_proof" => some 0.5
  | "complexity", "urgent_offer" => some 0.1
  | "urgency", "consultative" => some 0.5
  | "urgency", "social_proof" => some 0.4
  | "urgency", "urgent_offer" => some 1
  | _, _ => none

/-- evaluateByRules, src/llm-evaluator.mjs lines 100-138. -/
def evaluateByRules (lead : Lead) (strategy : String) (response : String) : EvalResult :=
  let score0 : ℚ := 5.5
  let score1 := score0 + (objectionBoost lead.objectionType strategy).getD 0.2
  let score2 := score1 + (if strIncludes response lead.name then 0.4 else 0)
  let score3 := score2 + (if strIncludes response lead.goal then 0.6 else 0)
  let score4 := score3 + (if strIncludes (jsToLower response) "step" then 0.4 else 0)
  let score5 := score4 + (if strIncludes (jsToLower response) "week" then 0.2 else 0)
  let score6 := score5 +
    (match lead.sentiment with
     | some "skeptical" => -0.2
     | some "overwhelmed" => -0.2
     | _ => 0)
  let score7 := score6 +
    (if strategy = "urgent_offer" ∧
        (lead.sentiment = some "skeptical" ∨ lead.sentiment = some "overwhelmed")
     then -0.3 else 0)
  let bounded := max 1 (min 10 score7)
  let conversionProbability := max 0.05 (min 0.92 ((bounded - 3) / 8))
  ⟨round2 bounded, round2 conversionProbability, "rule", none⟩

/-- The scoring payload extracted from an evaluator response before
normalization; none in a numeric field models Number(...) not being finite,
none in notes models a non-string notes value. -/
structure RawScoring where
  score : Option ℚ
  conversionProbability : Option ℚ
  notes : Option String
deriving DecidableEq

/-- The score/probability/notes triple normalizeScoring produces. -/
structure Scoring where
  score : ℚ
  conversionProbability : ℚ
  notes : Option String
deriving DecidableEq

/-- normalizeScoring, src/llm-evaluator.mjs lines 50-66; the argument is the
payload parseJsonObjectFromText extracted (none when extraction failed). -/
def normalizeScoring (raw : Option RawScoring) : Option Scoring :=
  match raw with
  | none => none
  | some r =>
    match r.score, r.conversionProbability with
    | some s, some p =>
        some ⟨round2 (max 1 (min 10 s)), round2 (max 0.05 (min 0.95 p)),
          r.notes.map (fun n => jsTake n 300)⟩
    | _, _ => none

/-- Oracle describing how the primary evaluator's network call turned out;
everything after the call is translated code.  The payload case carries the
message content (for the error text) and the scoring object extracted from
it by parseJsonObjectFromText. -/
inductive LlmNetOutcome where
  | requestFailed (err : String)
  | httpError (status : ℕ) (body : String)
  | bodyNotJson (body : String)
  | payload (content : String) (json : Option RawScoring)
deriving DecidableEq

/-- evaluateByLlm, src/llm-evaluator.mjs lines 140-214, as a function of the
network outcome: an error value for every failure path, otherwise the
normalized scoring tagged with source llm. -/
def evaluateByLlm (net : LlmNetOutcome) : Except String EvalResult :=
  match net with
  | .requestFailed err => .error ("LLM request failed: " ++ err)
  | .httpError status body =>
      .error ("LLM HTTP " ++ toString status ++ ": " ++ jsTake body 400)
  | .bodyNotJson body => .error ("LLM response is not JSON: " ++ jsTake body 400)
  | .payload content json =>
      match normalizeScoring json with
      | some norm => .ok ⟨norm.score, norm.conversionProbability, "llm", norm.notes⟩
      | none => .error ("LLM returned invalid scoring payload: " ++ jsTake content 400)

/-- evaluateLeadAdaptive, src/llm-evaluator.mjs lines 216-234.  useLlm is
shouldUseLlm(config) (environment-determined); net is the outcome of the
primary evaluator's network call. -/
def evaluateLeadAdaptive (useLlm : Bool) (net : LlmNetOutcome)
    (lead : Lead) (strategy : String) (response : String) : EvalResult :=
  if !useLlm then evaluateByRules lead strategy response
  else
    match evaluateByLlm net with
    | .ok v => v
    | .error e =>
        let fallback := evaluateByRules lead strategy response
        { fallback with notes := some e, source := "rule_fallback" }

/-- One entry of the orchestrator's per-round events list (the fields the
verified properties read), src/run.mjs lines 242-254. -/
structure RoundEvent where
  leadId : String
  strategy : String
  score : ℚ
deriving DecidableEq

/-- One iteration of the per-lead loop of main, src/run.mjs lines 194-259:
choose the strategy (warm-up round-robin keyed by events.length, otherwise
the learned policy), evaluate every catalog strategy as a candidate, update
the memory with the used strategy's result and the full candidate map, and
append the event.  eval is the evaluator (evaluateLeadAdaptive with its
environment and network outcome fixed), render is buildResponse; the used
result equals the candidate map's entry for the chosen strategy. -/
def leadStep (eval : Lead → String → String → EvalResult)
    (render : String → Lead → String) (epoch warmupEpochs : ℕ)
    (acc : Memory × List RoundEvent) (lead : Lead) : Memory × List RoundEvent :=
  let m := acc.1
  let events := acc.2
  let strategy :=
    if epoch ≤ warmupEpochs then pickWarmupStrategy events.length
    else pickBestStrategy m lead.objectionType
  let candidateScores := STRATEGIES.map (fun s => (s, eval lead s (render s lead)))
  let response := render strategy lead
  let result := eval lead strategy response
  let m1 := updateMemory m lead strategy result epoch response candidateScores
  (m1, events ++ [⟨lead.id, strategy, result.score⟩])

/-- One epoch of main, src/run.mjs lines 188-267: the per-lead loop over the
whole lead list, then exactly one exploration decay and a run-counter
increment. -/
def runEpoch (eval : Lead → String → String → EvalResult)
    (render : String → Lead → String) (m0 : Memory) (leads : List Lead)
    (epoch warmupEpochs : ℕ) : Memory × List RoundEvent :=
  let r := leads.foldl (leadStep eval render epoch warmupEpochs) (m0, [])
  let m1 := decayExploration r.1
  ({ m1 with runs := m1.runs + 1 }, r.2)

/-! ### General lemmas about the rounding and scanning helpers -/

theorem ratFloor_eq_floor (q : ℚ) : Rat.floor q = ⌊q⌋ := by
  rw [Rat.floor_def', Rat.floor_def]

theorem round4_eq (q : ℚ) : round4 q = (⌊q * 10000 + 1 / 2⌋ : ℚ) / 10000 := by
  rw [round4, ratFloor_eq_floor]

theorem round2_eq (q : ℚ) : round2 q = (⌊q * 100 + 1 / 2⌋ : ℚ) / 100 := by
  rw [round2, ratFloor_eq_floor]

theorem round4_mono {x y : ℚ} (h : x ≤ y) : round4 x ≤ round4 y := by
  rw [round4_eq, round4_eq]
  have hf : (⌊x * 10000 + 1 / 2⌋ : ℤ) ≤ ⌊y * 10000 + 1 / 2⌋ :=
    Int.floor_mono (by linarith)
  have hq : ((⌊x * 10000 + 1 / 2⌋ : ℤ) : ℚ) ≤ ((⌊y * 10000 + 1 / 2⌋ : ℤ) : ℚ) := by
    exact_mod_cast hf
  linarith

theorem round2_mono {x y : ℚ} (h : x ≤ y) : round2 x ≤ round2 y := by
  rw [round2_eq, round2_eq]
  have hf : (⌊x * 100 + 1 / 2⌋ : ℤ) ≤ ⌊y * 100 + 1 / 2⌋ :=
    Int.floor_mono (by linarith)
  have hq : ((⌊x * 100 + 1 / 2⌋ : ℤ) : ℚ) ≤ ((⌊y * 100 + 1 / 2⌋ : ℤ) : ℚ) := by
    exact_mod_cast hf
  linarith

theorem round4_intCast_div (k : ℤ) : round4 ((k : ℚ) / 10000) = (k : ℚ) / 10000 := by
  rw [round4_eq]
  have h1 : (k : ℚ) / 10000 * 10000 = (k : ℚ) := by norm_num
  rw [h1, Int.floor_int_add]
  have h2 : ⌊(1 / 2 : ℚ)⌋ = 0 := by
    rw [Int.floor_eq_zero_iff]
    constructor <;> norm_num
  rw [h2]
  norm_num

theorem round2_intCast_div (k : ℤ) : round2 ((k : ℚ) / 100) = (k : ℚ) / 100 := by
  rw [round2_eq]
  have h1 : (k : ℚ) / 100 * 100 = (k : ℚ) := by norm_num
  rw [h1, Int.floor_int_add]
  have h2 : ⌊(1 / 2 : ℚ)⌋ = 0 := by
    rw [Int.floor_eq_zero_iff]
    constructor <;> norm_num
  rw [h2]
  norm_num

theorem round4_exists_intCast_div (q : ℚ) : ∃ k : ℤ, round4 q = (k : ℚ) / 10000 :=
  ⟨⌊q * 10000 + 1 / 2⌋, round4_eq q⟩

theorem polLookup_mem {key v : String} :
    ∀ {l : List (String × String)}, polLookup key l = some v → (key, v) ∈ l := by
  intro l
  induction l with
  | nil => intro h; simp [polLookup] at h
  | cons p rest ih =>
    intro h
    rw [polLookup] at h
    by_cases hk : p.1 = key
    · rw [if_pos hk] at h
      cases h
      have hp : p = (key, p.2) := by rw [← hk]
      rw [← hp]
      exact List.mem_cons_self _ _
    · rw [if_neg hk] at h
      exact List.mem_cons_of_mem _ (ih h)

theorem bestFold_le (init : String × ℚ) (l : List (String × EvalResult)) :
    init.2 ≤ (bestFold init l).2 ∧ ∀ c ∈ l, c.2.score ≤ (bestFold init l).2 := by
  induction l generalizing init with
  | nil => exact ⟨le_refl _, by intro c hc; simp at hc⟩
  | cons c tl ih =>
    rw [bestFold, List.foldl_cons]
    by_cases h : init.2 < c.2.score
    · rw [if_pos h]
      obtain ⟨h1, h2⟩ := ih (c.1, c.2.score)
      refine ⟨le_of_lt (lt_of_lt_of_le h h1), ?_⟩
      intro d hd
      rcases List.mem_cons.mp hd with hd | hd
      · rw [hd]; exact h1
      · exact h2 d hd
    · rw [if_neg h]
      obtain ⟨h1, h2⟩ := ih init
      refine ⟨h1, ?_⟩
      intro d hd
      rcases List.mem_cons.mp hd with hd | hd
      · rw [hd]; exact le_trans (le_of_not_lt h) h1
      · exact h2 d hd

theorem bestFold_mem (init : String × ℚ) (l : List (String × EvalResult)) :
    bestFold init l = init ∨ ∃ c ∈ l, bestFold init l = (c.1, c.2.score) := by
  induction l generalizing init with
  | nil => exact Or.inl rfl
  | cons c tl ih =>
    rw [bestFold, List.foldl_cons]
    by_cases h : init.2 < c.2.score
    · rw [if_pos h]
      rcases ih (c.1, c.2.score) with h1 | ⟨d, hd, h1⟩
      · exact Or.inr ⟨c, List.mem_cons_self _ _, h1⟩
      · exact Or.inr ⟨d, List.mem_cons_of_mem _ hd, h1⟩
    · rw [if_neg h]
      rcases ih init with h1 | ⟨d, hd, h1⟩
      · exact Or.inl h1
      · exact Or.inr ⟨d, List.mem_cons_of_mem _ hd, h1⟩

theorem bestFold_eq_of_le (init : String × ℚ) (l : List (String × EvalResult))
    (h : ∀ c ∈ l, c.2.score ≤ init.2) : bestFold init l = init := by
  induction l with
  | nil => rfl
  | cons c tl ih =>
    rw [bestFold, List.foldl_cons]
    rw [if_neg (not_lt.mpr (h c (List.mem_cons_self _ _)))]
    exact ih (fun d hd => h d (List.mem_cons_of_mem _ hd))

/-! ### Sample inputs used by the witness theorems -/

/-- A concrete lead on a text channel with a valid phone number. -/
def sampleLead : Lead :=
  { id := "lead-1"
    name := "Amira"
    goal := "grow bookings"
    objectionType := "price"
    sentiment := some "skeptical"
    channel := some "whatsapp"
    phoneNumber := some "+12345678" }

/-- A concrete evaluation result. -/
def sampleResult : EvalResult :=
  { score := 7, conversionProbability := 0.4, source := "rule", notes := none }

/-- A concrete freshly-reset memory (data/memory.json baseline). -/
def sampleMemory : Memory :=
  { runs := 0
    policy := { epsilon := 0.45, decay := 0.7, minEpsilon := 0.05 }
    strategyStats := fun _ => { uses := 0, totalScore := 0, avgScore := 0 }
    objectionPolicy := []
    history := [] }

/-! ### The claims -/

/-- Claim C5: the escalation decision returns true exactly when the round
index is at least the threshold, the lead's channel is (case-insensitively)
a recognized text channel, the lead's phone number is a string that is
non-empty after trimming, and either the sentiment is (case-insensitively)
skeptical, hesitant or overwhelmed, or the conversion probability is
strictly below 0.58. -/
theorem shouldEscalateToVoice_iff (lead : Lead) (result : EvalResult)
    (epoch minEpochForVoice : ℕ) :
    shouldEscalateToVoice lead result epoch minEpochForVoice = true ↔
      (minEpochForVoice ≤ epoch ∧
       jsToLower (lead.channel.getD "") ∈ TEXT_CHANNELS ∧
       (∃ p, lead.phoneNumber = some p ∧ 0 < (jsTrim p).length) ∧
       (jsToLower (lead.sentiment.getD "") ∈
          (["skeptical", "hesitant", "overwhelmed"] : List String) ∨
        result.conversionProbability < 0.58)) := by
  cases hp : lead.phoneNumber with
  | none => simp [shouldEscalateToVoice, hp]
  | some p =>
    simp [shouldEscalateToVoice, hp, List.mem_cons, List.not_mem_nil, or_false,
      or_assoc]

/-- Witness for C5 at a concrete lead: the end-to-end scenario of the spec
(skeptical sentiment, valid phone, round 2, threshold 2) escalates. -/
theorem shouldEscalateToVoice_iff_witness :
    shouldEscalateToVoice sampleLead sampleResult 2 2 = true :=
  (shouldEscalateToVoice_iff sampleLead sampleResult 2 2).mpr
    ⟨by decide, by decide, ⟨"+12345678", rfl, by decide⟩, Or.inl (by decide)⟩

/-- Claim C6: every memory update appends one history event and keeps only
the most recent 200 entries: the new history is the suffix of the appended
log obtained by dropping exactly the oldest overflow entries, its length
never exceeds 200, and no entry is dropped while the appended log fits. -/
theorem updateMemory_history_fifo (m : Memory) (lead : Lead) (strategy : String)
    (result : EvalResult) (epoch : ℕ) (response : String)
    (candidateScores : List (String × EvalResult)) :
    (updateMemory m lead strategy result epoch response candidateScores).history =
      (m.history ++ [mkHistoryEvent lead strategy result epoch response]).drop
        ((m.history.length + 1) - 200) ∧
    (updateMemory m lead strategy result epoch response candidateScores).history.length
      ≤ 200 ∧
    (updateMemory m lead strategy result epoch response candidateScores).history <:+
      (m.history ++ [mkHistoryEvent lead strategy result epoch response]) ∧
    (m.history.length + 1 ≤ 200 →
      (updateMemory m lead strategy result epoch response candidateScores).history =
        m.history ++ [mkHistoryEvent lead strategy result epoch response]) := by
  have hlen : (m.history ++ [mkHistoryEvent lead strategy result epoch response]).length =
      m.history.length + 1 := by simp
  by_cases h : 200 < m.history.length + 1
  · have hhist :
        (updateMemory m lead strategy result epoch response candidateScores).history =
        (m.history ++ [mkHistoryEvent lead strategy result epoch response]).drop
          ((m.history.length + 1) - 200) := by
      simp only [updateMemory, hlen]
      rw [if_pos h]
    refine ⟨hhist, ?_, ?_, ?_⟩
    · rw [hhist, List.length_drop, hlen]
      omega
    · rw [hhist]
      exact List.drop_suffix _ _
    · intro hle
      omega
  · have h0 : (m.history.length + 1) - 200 = 0 := by omega
    have hhist :
        (updateMemory m lead strategy result epoch response candidateScores).history =
        m.history ++ [mkHistoryEvent lead strategy result epoch response] := by
      simp only [updateMemory, hlen]
      rw [if_neg h]
    refine ⟨?_, ?_, ?_, fun _ => hhist⟩
    · rw [hhist, h0, List.drop_zero]
    · rw [hhist, hlen]
      omega
    · rw [hhist]

/-- Witness for C6: the bound evaluated after one update on the sample
memory. -/
theorem updateMemory_history_fifo_witness :
    (updateMemory sampleMemory sampleLead "consultative" sampleResult 1 "hello"
      []).history.length ≤ 200 :=
  (updateMemory_history_fifo sampleMemory sampleLead "consultative" sampleResult 1
    "hello" []).2.1

/-- Claim C2: when the candidate map contains the used strategy with the used
result, the memory update unconditionally overwrites the objection-policy
entry for the lead's objection category with a strategy whose candidate score
is the maximum over the full candidate map; when the used result already
attains the maximum, the used strategy is kept. -/
theorem updateMemory_objectionPolicy_best (m : Memory) (lead : Lead)
    (strategy : String) (result : EvalResult) (epoch : ℕ) (response : String)
    (candidateScores : List (String × EvalResult))
    (hmem : (strategy, result) ∈ candidateScores) :
    ∃ b : String,
      polLookup lead.objectionType
        (updateMemory m lead strategy result epoch response
          candidateScores).objectionPolicy = some b ∧
      (∃ r : EvalResult, (b, r) ∈ candidateScores ∧
        ∀ c ∈ candidateScores, c.2.score ≤ r.score) ∧
      ((∀ c ∈ candidateScores, c.2.score ≤ result.score) → b = strategy) := by
  refine ⟨(bestFold (strategy, result.score) candidateScores).1, ?_, ?_, ?_⟩
  · simp [updateMemory, polLookup]
  · rcases bestFold_mem (strategy, result.score) candidateScores with h | ⟨c, hc, h⟩
    · refine ⟨result, by rw [h]; exact hmem, ?_⟩
      intro d hd
      have := (bestFold_le (strategy, result.score) candidateScores).2 d hd
      rw [h] at this
      exact this
    · refine ⟨c.2, by rw [h]; exact hc, ?_⟩
      intro d hd
      have := (bestFold_le (strategy, result.score) candidateScores).2 d hd
      rw [h] at this
      exact this
  · intro hle
    rw [bestFold_eq_of_le (strategy, result.score) candidateScores
      (fun c hc => hle c hc)]

/-- Witness for C2 at concrete inputs: with the used strategy in a two-entry
candidate map the overwrite happens and picks a maximal candidate. -/
theorem updateMemory_objectionPolicy_best_witness :
    ∃ b : String,
      polLookup "price"
        (updateMemory sampleMemory sampleLead "consultative" sampleResult 1 "hi"
          [("consultative", sampleResult),
           ("social_proof", { sampleResult with score := 8 })]).objectionPolicy =
        some b ∧
      (∃ r : EvalResult,
        (b, r) ∈ [("consultative", sampleResult),
                  ("social_proof", { sampleResult with score := 8 })] ∧
        ∀ c ∈ [("consultative", sampleResult),
               ("social_proof", { sampleResult with score := 8 })],
          c.2.score ≤ r.score) ∧
      ((∀ c ∈ [("consultative", sampleResult),
               ("social_proof", { sampleResult with score := 8 })],
          c.2.score ≤ sampleResult.score) → b = "consultative") :=
  updateMemory_objectionPolicy_best sampleMemory sampleLead "consultative"
    sampleResult 1 "hi" _ (List.mem_cons_self _ _)

/-- The per-strategy statistics invariant of the spec: the stored average is
the rounded quotient of the stored totals whenever the strategy has been
used, and 0 otherwise. -/
def statsInvariant (m : Memory) : Prop :=
  ∀ s ∈ STRATEGIES,
    ((m.strategyStats s).uses = 0 → (m.strategyStats s).avgScore = 0) ∧
    (0 < (m.strategyStats s).uses →
      (m.strategyStats s).avgScore =
        round4 ((m.strategyStats s).totalScore / ((m.strategyStats s).uses : ℚ)))

/-- Claim C3: a memory update increments the used strategy's use counter by
exactly 1 and adds the used score to its total at 4-decimal rounding, and it
preserves the invariant that every catalog strategy's stored average equals
its rounded totalScore / uses when uses is positive and 0 when uses is 0. -/
theorem updateMemory_stats (m : Memory) (lead : Lead) (strategy : String)
    (result : EvalResult) (epoch : ℕ) (response : String)
    (candidateScores : List (String × EvalResult)) (hinv : statsInvariant m) :
    ((updateMemory m lead strategy result epoch response
        candidateScores).strategyStats strategy).uses =
      (m.strategyStats strategy).uses + 1 ∧
    ((updateMemory m lead strategy result epoch response
        candidateScores).strategyStats strategy).totalScore =
      round4 ((m.strategyStats strategy).totalScore + result.score) ∧
    statsInvariant
      (updateMemory m lead strategy result epoch response candidateScores) := by
  refine ⟨?_, ?_, ?_⟩
  · simp [updateMemory]
  · simp [updateMemory]
  · intro s hs
    by_cases hstrat : s = strategy
    · subst hstrat
      have hupd :
          (updateMemory m lead s result epoch response candidateScores).strategyStats s
            = { uses := (m.strategyStats s).uses + 1
                totalScore := round4 ((m.strategyStats s).totalScore + result.score)
                avgScore := round4 (round4 ((m.strategyStats s).totalScore + result.score)
                  / (((m.strategyStats s).uses + 1 : ℕ) : ℚ)) } := by
        simp [updateMemory, getAverage]
      rw [hupd]
      exact ⟨fun h => absurd h (Nat.succ_ne_zero _), fun _ => rfl⟩
    · have hsame :
          (updateMemory m lead strategy result epoch response
            candidateScores).strategyStats s = m.strategyStats s := by
        simp [updateMemory, hstrat]
      rw [hsame]
      exact hinv s hs

/-- Witness for C3: the invariant hypothesis discharged at the freshly-reset
sample memory, the counter fact extracted. -/
theorem updateMemory_stats_witness :
    ((updateMemory sampleMemory sampleLead "consultative" sampleResult 1 "hi"
        []).strategyStats "consultative").uses =
      (sampleMemory.strategyStats "consultative").uses + 1 :=
  (updateMemory_stats sampleMemory sampleLead "consultative" sampleResult 1 "hi" []
    (fun _ _ => ⟨fun _ => rfl, fun h => absurd h (lt_irrefl 0)⟩)).1

/-- The highest-average scan returns a catalog member whose stored average is
maximal, and every catalog entry listed before it has a strictly smaller
stored average (so ties go to the first-listed strategy). -/
theorem bestByAvg_spec (m : Memory) :
    bestByAvg m ∈ STRATEGIES ∧
    (∀ s ∈ STRATEGIES,
      (m.strategyStats s).avgScore ≤ (m.strategyStats (bestByAvg m)).avgScore) ∧
    ∃ pre post, STRATEGIES = pre ++ bestByAvg m :: post ∧
      ∀ s ∈ pre,
        (m.strategyStats s).avgScore < (m.strategyStats (bestByAvg m)).avgScore := by
  have hunf : bestByAvg m =
      if (m.strategyStats "consultative").avgScore <
          (m.strategyStats "social_proof").avgScore then
        (if (m.strategyStats "social_proof").avgScore <
            (m.strategyStats "urgent_offer").avgScore
         then "urgent_offer" else "social_proof")
      else
        (if (m.strategyStats "consultative").avgScore <
            (m.strategyStats "urgent_offer").avgScore
         then "urgent_offer" else "consultative") := by
    by_cases hab : (m.strategyStats "consultative").avgScore <
        (m.strategyStats "social_proof").avgScore
    · by_cases hbc : (m.strategyStats "social_proof").avgScore <
          (m.strategyStats "urgent_offer").avgScore
      · simp [bestByAvg, STRATEGIES, hab, hbc]
      · simp [bestByAvg, STRATEGIES, hab, hbc]
    · by_cases hac : (m.strategyStats "consultative").avgScore <
          (m.strategyStats "urgent_offer").avgScore
      · simp [bestByAvg, STRATEGIES, hab, hac]
      · simp [bestByAvg, STRATEGIES, hab, hac]
  rw [hunf]
  split_ifs with hab hbc hac
  · refine ⟨by decide, ?_, ["consultative", "social_proof"], [], by decide, ?_⟩
    · intro s hs
      simp only [STRATEGIES, List.mem_cons, List.not_mem_nil, or_false] at hs
      rcases hs with rfl | rfl | rfl
      · linarith
      · linarith
      · linarith
    · intro s hs
      simp only [List.mem_cons, List.not_mem_nil, or_false] at hs
      rcases hs with rfl | rfl
      · linarith
      · linarith
  · refine ⟨by decide, ?_, ["consultative"], ["urgent_offer"], by decide, ?_⟩
    · intro s hs
      simp only [STRATEGIES, List.mem_cons, List.not_mem_nil, or_false] at hs
      rcases hs with rfl | rfl | rfl
      · linarith
      · linarith
      · linarith
    · intro s hs
      simp only [List.mem_cons, List.not_mem_nil, or_false] at hs
      rcases hs with rfl
      linarith
  · refine ⟨by decide, ?_, ["consultative", "social_proof"], [], by decide, ?_⟩
    · intro s hs
      simp only [STRATEGIES, List.mem_cons, List.not_mem_nil, or_false] at hs
      rcases hs with rfl | rfl | rfl
      · linarith
      · linarith
      · linarith
    · intro s hs
      simp only [List.mem_cons, List.not_mem_nil, or_false] at hs
      rcases hs with rfl | rfl
      · linarith
      · linarith
  · refine ⟨by decide, ?_, [], ["social_proof", "urgent_offer"], by decide, ?_⟩
    · intro s hs
      simp only [STRATEGIES, List.mem_cons, List.not_mem_nil, or_false] at hs
      rcases hs with rfl | rfl | rfl
      · linarith
      · linarith
      · linarith
    · intro s hs
      simp at hs

/-- Claim C1: past the warm-up rounds, with every objection-policy entry
naming a catalog strategy, selection returns the policy entry for the
objection category when one exists and otherwise the strategy with the
highest stored average score with ties going to the first-listed catalog
entry; in every case the returned value is a catalog member. -/
theorem select_after_warmup (m : Memory) (t : String) (epoch warmupEpochs k : ℕ)
    (hpol : ∀ p ∈ m.objectionPolicy, p.2 ∈ STRATEGIES)
    (hround : warmupEpochs < epoch) :
    select m t epoch warmupEpochs k ∈ STRATEGIES ∧
    (∀ v, polLookup t m.objectionPolicy = some v →
      select m t epoch warmupEpochs k = v) ∧
    (polLookup t m.objectionPolicy = none →
      (∀ s ∈ STRATEGIES, (m.strategyStats s).avgScore ≤
        (m.strategyStats (select m t epoch warmupEpochs k)).avgScore) ∧
      ∃ pre post, STRATEGIES = pre ++ select m t epoch warmupEpochs k :: post ∧
        ∀ s ∈ pre, (m.strategyStats s).avgScore <
          (m.strategyStats (select m t epoch warmupEpochs k)).avgScore) := by
  have hsel : select m t epoch warmupEpochs k = pickBestStrategy m t := by
    rw [select, if_neg (not_le.mpr hround)]
  rw [hsel]
  cases hl : polLookup t m.objectionPolicy with
  | some v =>
    have hv : v ∈ STRATEGIES := hpol (t, v) (polLookup_mem hl)
    have hpick : pickBestStrategy m t = v := by
      rw [pickBestStrategy, hl]
      exact if_pos hv
    refine ⟨hpick ▸ hv, ?_, ?_⟩
    · intro v' hv'
      cases hv'
      exact hpick
    · intro hnone
      exact Option.noConfusion hnone
  | none =>
    have hpick : pickBestStrategy m t = bestByAvg m := by
      rw [pickBestStrategy, hl]
    rw [hpick]
    obtain ⟨h1, h2, h3⟩ := bestByAvg_spec m
    exact ⟨h1, fun v hv => Option.noConfusion hv, fun _ => ⟨h2, h3⟩⟩

/-- Witness for C1: with a policy entry for the price objection and round 2
after a 1-round warm-up, the entry is returned. -/
theorem select_after_warmup_witness :
    select { sampleMemory with objectionPolicy := [("price", "social_proof")] }
      "price" 2 1 0 = "social_proof" :=
  (select_after_warmup
    { sampleMemory with objectionPolicy := [("price", "social_proof")] }
    "price" 2 1 0 (by decide) (by decide)).2.1 "social_proof" rfl

/-- During warm-up the per-lead loop assigns pickWarmupStrategy of the
position within the round, whatever the starting memory and accumulated
events. -/
theorem leadStep_foldl_warmup (eval : Lead → String → String → EvalResult)
    (render : String → Lead → String) (epoch warmupEpochs : ℕ)
    (hwarm : epoch ≤ warmupEpochs) (leads : List Lead) :
    ∀ (m : Memory) (events : List RoundEvent),
      ((leads.foldl (leadStep eval render epoch warmupEpochs) (m, events)).2).map
          (fun ev => ev.strategy) =
        events.map (fun ev => ev.strategy) ++
          (List.range leads.length).map
            (fun k => pickWarmupStrategy (events.length + k)) := by
  induction leads with
  | nil => intro m events; simp
  | cons lead tl ih =>
    intro m events
    rw [List.foldl_cons]
    have h2 : (leadStep eval render epoch warmupEpochs (m, events) lead).2 =
        events ++ [⟨lead.id, pickWarmupStrategy events.length,
          (eval lead (pickWarmupStrategy events.length)
            (render (pickWarmupStrategy events.length) lead)).score⟩] := by
      simp [leadStep, if_pos hwarm]
    have hpair : leadStep eval render epoch warmupEpochs (m, events) lead =
        ((leadStep eval render epoch warmupEpochs (m, events) lead).1,
         (leadStep eval render epoch warmupEpochs (m, events) lead).2) := rfl
    rw [hpair, h2]
    rw [ih]
    have harg : ∀ k : ℕ, events.length + 1 + k = events.length + (k + 1) := by omega
    simp [List.range_succ_eq_map, List.map_map, Function.comp, harg, Nat.succ_eq_add_one]

/-- Claim C7: in a warm-up round the assigned strategy sequence is exactly
the catalog cycled by position within the round — catalog[k mod catalogSize]
for the lead at 0-based position k — independent of the memory, the
evaluator and the renderer, hence identical across repeated runs with the
same lead ordering and warm-up length. -/
theorem warmup_round_robin (m : Memory) (eval : Lead → String → String → EvalResult)
    (render : String → Lead → String) (leads : List Lead) (epoch warmupEpochs : ℕ)
    (hwarm : epoch ≤ warmupEpochs) :
    (runEpoch eval render m leads epoch warmupEpochs).2.map (fun ev => ev.strategy) =
      (List.range leads.length).map
        (fun k => STRATEGIES.getD (k % STRATEGIES.length) "") ∧
    ∀ (m' : Memory) (eval' : Lead → String → String → EvalResult)
      (render' : String → Lead → String),
      (runEpoch eval' render' m' leads epoch warmupEpochs).2.map (fun ev => ev.strategy)
        = (runEpoch eval render m leads epoch warmupEpochs).2.map
            (fun ev => ev.strategy) := by
  have key : ∀ (m₀ : Memory) (eval₀ : Lead → String → String → EvalResult)
      (render₀ : String → Lead → String),
      (runEpoch eval₀ render₀ m₀ leads epoch warmupEpochs).2.map (fun ev => ev.strategy)
        = (List.range leads.length).map
            (fun k => STRATEGIES.getD (k % STRATEGIES.length) "") := by
    intro m₀ eval₀ render₀
    have hrun : (runEpoch eval₀ render₀ m₀ leads epoch warmupEpochs).2 =
        (leads.foldl (leadStep eval₀ render₀ epoch warmupEpochs) (m₀, [])).2 := by
      simp [runEpoch]
    rw [hrun, leadStep_foldl_warmup eval₀ render₀ epoch warmupEpochs hwarm leads m₀ []]
    simp [pickWarmupStrategy]
  exact ⟨key m eval render, fun m' eval' render' => by
    rw [key m' eval' render', key m eval render]⟩

/-- Witness for C7: three sample leads in round 1 with warm-up length 1 are
assigned the catalog in order. -/
theorem warmup_round_robin_witness :
    (runEpoch (fun _ _ _ => sampleResult) (fun _ _ => "hi") sampleMemory
        [sampleLead, { sampleLead with id := "lead-2" },
         { sampleLead with id := "lead-3" }] 1 1).2.map (fun ev => ev.strategy) =
      (List.range 3).map (fun k => STRATEGIES.getD (k % STRATEGIES.length) "") :=
  (warmup_round_robin sampleMemory (fun _ _ _ => sampleResult) (fun _ _ => "hi")
    [sampleLead, { sampleLead with id := "lead-2" },
     { sampleLead with id := "lead-3" }] 1 1 (le_refl 1)).1

/-- One decay step bounded on both sides, provided the floor and the current
rate are representable in 4 decimal places. -/
theorem decay_step_bounds {f e d : ℚ} (hf0 : 0 ≤ f) (hfe : f ≤ e)
    (hd1 : d ≤ 1)
    (hfrep : ∃ a : ℤ, f = (a : ℚ) / 10000) (herep : ∃ b : ℤ, e = (b : ℚ) / 10000) :
    f ≤ round4 (max f (e * d)) ∧ round4 (max f (e * d)) ≤ e := by
  obtain ⟨a, rfl⟩ := hfrep
  obtain ⟨b, rfl⟩ := herep
  constructor
  · calc (a : ℚ) / 10000 = round4 ((a : ℚ) / 10000) := (round4_intCast_div a).symm
      _ ≤ round4 (max ((a : ℚ) / 10000) ((b : ℚ) / 10000 * d)) :=
        round4_mono (le_max_left _ _)
  · have he0 : 0 ≤ (b : ℚ) / 10000 := le_trans hf0 hfe
    have hmax : max ((a : ℚ) / 10000) ((b : ℚ) / 10000 * d) ≤ (b : ℚ) / 10000 :=
      max_le hfe (mul_le_of_le_one_right he0 hd1)
    calc round4 (max ((a : ℚ) / 10000) ((b : ℚ) / 10000 * d))
        ≤ round4 ((b : ℚ) / 10000) := round4_mono hmax
      _ = (b : ℚ) / 10000 := round4_intCast_div b

/-- Iterating the decay never changes the decay factor or the floor. -/
theorem decayExploration_iterate_fixed (m : Memory) (n : ℕ) :
    (decayExploration^[n] m).policy.minEpsilon = m.policy.minEpsilon ∧
    (decayExploration^[n] m).policy.decay = m.policy.decay := by
  induction n with
  | zero => exact ⟨rfl, rfl⟩
  | succ n ih =>
    rw [Function.iterate_succ_apply']
    exact ih

/-- The per-lead loop never touches the exploration policy. -/
theorem foldl_leadStep_policy (eval : Lead → String → String → EvalResult)
    (render : String → Lead → String) (epoch warmupEpochs : ℕ)
    (leads : List Lead) :
    ∀ (m : Memory) (events : List RoundEvent),
      ((leads.foldl (leadStep eval render epoch warmupEpochs) (m, events)).1).policy =
        m.policy := by
  induction leads with
  | nil => intro m events; rfl
  | cons lead tl ih =>
    intro m events
    rw [List.foldl_cons]
    have hpair : leadStep eval render epoch warmupEpochs (m, events) lead =
        ((leadStep eval render epoch warmupEpochs (m, events) lead).1,
         (leadStep eval render epoch warmupEpochs (m, events) lead).2) := rfl
    rw [hpair, ih]
    simp [leadStep, updateMemory]

/-- Claim C4 (amended): when additionally the floor and the current rate are
4-decimal-representable, the decay step — applied exactly once per completed
round, whatever the lead list — replaces the rate by
round4(max(floorRate, currentRate * decayFactor)), stays at or above the
floor, and the rate sequence across successive rounds is non-increasing. -/
theorem decayExploration_amended (m : Memory)
    (hf0 : 0 ≤ m.policy.minEpsilon)
    (hfe : m.policy.minEpsilon ≤ m.policy.epsilon)
    (_hd0 : 0 ≤ m.policy.decay) (hd1 : m.policy.decay ≤ 1)
    (hfrep : ∃ a : ℤ, m.policy.minEpsilon = (a : ℚ) / 10000)
    (herep : ∃ b : ℤ, m.policy.epsilon = (b : ℚ) / 10000) :
    (decayExploration m).policy.epsilon =
      round4 (max m.policy.minEpsilon (m.policy.epsilon * m.policy.decay)) ∧
    (∀ (eval : Lead → String → String → EvalResult)
       (render : String → Lead → String) (leads : List Lead)
       (epoch warmupEpochs : ℕ),
       ((runEpoch eval render m leads epoch warmupEpochs).1).policy.epsilon =
         round4 (max m.policy.minEpsilon (m.policy.epsilon * m.policy.decay))) ∧
    (∀ n : ℕ,
      m.policy.minEpsilon ≤ (decayExploration^[n + 1] m).policy.epsilon ∧
      (decayExploration^[n + 1] m).policy.epsilon ≤
        (decayExploration^[n] m).policy.epsilon) := by
  have hind : ∀ n : ℕ,
      m.policy.minEpsilon ≤ (decayExploration^[n] m).policy.epsilon ∧
      (∃ b : ℤ, (decayExploration^[n] m).policy.epsilon = (b : ℚ) / 10000) := by
    intro n
    induction n with
    | zero => exact ⟨hfe, herep⟩
    | succ n ih =>
      obtain ⟨hle, hrep⟩ := ih
      obtain ⟨hfix1, hfix2⟩ := decayExploration_iterate_fixed m n
      have heps : (decayExploration^[n + 1] m).policy.epsilon =
          round4 (max m.policy.minEpsilon
            ((decayExploration^[n] m).policy.epsilon * m.policy.decay)) := by
        rw [Function.iterate_succ_apply']
        show round4 (max (decayExploration^[n] m).policy.minEpsilon
          ((decayExploration^[n] m).policy.epsilon *
            (decayExploration^[n] m).policy.decay)) = _
        rw [hfix1, hfix2]
      obtain ⟨hlow, _⟩ := decay_step_bounds hf0 hle hd1 hfrep hrep
      exact ⟨heps ▸ hlow, heps ▸ round4_exists_intCast_div _⟩
  have hstep : ∀ n : ℕ,
      (decayExploration^[n + 1] m).policy.epsilon =
        round4 (max m.policy.minEpsilon
          ((decayExploration^[n] m).policy.epsilon * m.policy.decay)) := by
    intro n
    obtain ⟨hfix1, hfix2⟩ := decayExploration_iterate_fixed m n
    rw [Function.iterate_succ_apply']
    show round4 (max (decayExploration^[n] m).policy.minEpsilon
      ((decayExploration^[n] m).policy.epsilon *
        (decayExploration^[n] m).policy.decay)) = _
    rw [hfix1, hfix2]
  refine ⟨rfl, ?_, ?_⟩
  · intro eval render leads epoch warmupEpochs
    show ((decayExploration
      ((leads.foldl (leadStep eval render epoch warmupEpochs) (m, [])).1)).policy).epsilon
        = _
    rw [show ∀ mm : Memory, (decayExploration mm).policy.epsilon =
        round4 (max mm.policy.minEpsilon (mm.policy.epsilon * mm.policy.decay))
      from fun _ => rfl]
    rw [foldl_leadStep_policy eval render epoch warmupEpochs leads m []]
  · intro n
    obtain ⟨hle, hrep⟩ := hind n
    obtain ⟨hlow, hhigh⟩ := decay_step_bounds hf0 hle hd1 hfrep hrep
    exact ⟨(hstep n) ▸ hlow, (hstep n) ▸ hhigh⟩

/-- Witness for C4 (amended) at the reset memory (epsilon 0.45, decay 0.7,
floor 0.05): after the first decay the rate stays at or above the floor. -/
theorem decayExploration_amended_witness :
    sampleMemory.policy.minEpsilon ≤
      (decayExploration^[0 + 1] sampleMemory).policy.epsilon :=
  ((decayExploration_amended sampleMemory (by norm_num [sampleMemory])
    (by norm_num [sampleMemory]) (by norm_num [sampleMemory])
    (by norm_num [sampleMemory])
    ⟨500, by norm_num [sampleMemory]⟩ ⟨4500, by norm_num [sampleMemory]⟩).2.2 0).1

/-- A memory satisfying the claim's stated hypotheses whose floor is not a
4-decimal quantity; decay drives the rate strictly below the floor. -/
def floorCexMemory : Memory :=
  { runs := 0
    policy := { epsilon := 1 / 25000, decay := 0, minEpsilon := 1 / 25000 }
    strategyStats := fun _ => { uses := 0, totalScore := 0, avgScore := 0 }
    objectionPolicy := []
    history := [] }

/-- Counterexample to C4 as stated: this memory satisfies
0 ≤ floorRate ≤ currentRate and 0 ≤ decayFactor ≤ 1, yet after one decay the
rate (rounded to 4 decimals) is strictly below the floor, refuting the
unqualified invariant currentRate ≥ floorRate. -/
theorem decayExploration_floor_counterexample :
    0 ≤ floorCexMemory.policy.minEpsilon ∧
    floorCexMemory.policy.minEpsilon ≤ floorCexMemory.policy.epsilon ∧
    0 ≤ floorCexMemory.policy.decay ∧ floorCexMemory.policy.decay ≤ 1 ∧
    (decayExploration floorCexMemory).policy.epsilon <
      floorCexMemory.policy.minEpsilon := by
  have heval : (decayExploration floorCexMemory).policy.epsilon = 0 := by
    show round4 (max (1 / 25000 : ℚ) (1 / 25000 * 0)) = 0
    norm_num [round4, Rat.floor_def']
  refine ⟨by norm_num [floorCexMemory], by norm_num [floorCexMemory],
    by norm_num [floorCexMemory], by norm_num [floorCexMemory], ?_⟩
  rw [heval]
  norm_num [floorCexMemory]

/-- Claim C8: a voice call goes out only when the round index has reached
the escalation threshold and the lead's phone number is valid E.164 (it
normalizes), regardless of sentiment and scores: the escalation decision
requires the threshold, and with an invalid number the dispatcher rejects
the attempt before any dispatch, so no call fires. -/
theorem voiceEscalation_guards (lead : Lead) (result : EvalResult)
    (epoch minEpochForVoice : ℕ) (c : CallAttempt)
    (hfire : voiceEscalation lead result epoch minEpochForVoice = some c)
    (hok : c.ok = true) :
    minEpochForVoice ≤ epoch ∧
    (normalizeE164Phone lead.phoneNumber).isSome = true := by
  by_cases hesc : shouldEscalateToVoice lead result epoch minEpochForVoice = true
  · have hc : c = startOutboundCallValidation lead.phoneNumber := by
      rw [voiceEscalation, if_pos hesc] at hfire
      cases hfire
      rfl
    refine ⟨((shouldEscalateToVoice_iff lead result epoch minEpochForVoice).mp
      hesc).1, ?_⟩
    cases hn : normalizeE164Phone lead.phoneNumber with
    | none =>
      rw [startOutboundCallValidation, hn] at hc
      rw [hc] at hok
      exact Bool.noConfusion hok
    | some n => rfl
  · rw [voiceEscalation, if_neg hesc] at hfire
    exact Option.noConfusion hfire

/-- Witness for C8: the sample lead fires a call in round 2 with threshold 2,
so the threshold and phone-validity conclusions hold there. -/
theorem voiceEscalation_guards_witness :
    2 ≤ 2 ∧ (normalizeE164Phone sampleLead.phoneNumber).isSome = true :=
  voiceEscalation_guards sampleLead sampleResult 2 2
    ⟨true, "SIMULATED", some "+12345678"⟩ (by decide) rfl

/-- The number produced by a successful normalization satisfies the strict
E.164 shape: a leading plus sign followed by 8 to 15 digits and nothing
else. -/
theorem normalizeE164Phone_valid {raw : Option String} {n : String}
    (h : normalizeE164Phone raw = some n) : specValidE164 n = true := by
  simp only [normalizeE164Phone] at h
  split_ifs at h with h1 h2 h3 h4
  cases h
  simp only [Bool.not_eq_true, Bool.not_eq_false', Bool.and_eq_true,
    decide_eq_true_eq, Bool.or_eq_false_iff, decide_eq_false_iff_not,
    not_lt] at h3 h4
  simp only [specValidE164, Bool.and_eq_true, decide_eq_true_eq]
  exact ⟨⟨⟨⟨trivial, h3.1⟩, h3.2⟩, h4.1⟩, h4.2⟩

/-- Claim C9 (amended): the dispatcher judges validity on the
separator-stripped number: a request whose phone fails E.164 normalization
(after removing parentheses, hyphens and whitespace it must be a leading
plus sign and 8-15 digits) is rejected with ok = false and the
distinguishable status INVALID_PHONE before any dispatch is attempted,
while a number that normalizes is dispatched with the normalized
plus-digits form as to_number — a form that itself satisfies the strict
E.164 shape. -/
theorem outboundCall_validation_amended (raw : Option String) :
    (normalizeE164Phone raw = none →
      startOutboundCallValidation raw = ⟨false, "INVALID_PHONE", none⟩) ∧
    (∀ n, normalizeE164Phone raw = some n →
      startOutboundCallValidation raw = ⟨true, "SIMULATED", some n⟩ ∧
      specValidE164 n = true) := by
  constructor
  · intro h
    rw [startOutboundCallValidation, h]
  · intro n h
    exact ⟨by rw [startOutboundCallValidation, h], normalizeE164Phone_valid h⟩

/-- Witness for C9 (amended): a number without a plus sign is rejected
before dispatch with INVALID_PHONE. -/
theorem outboundCall_validation_amended_witness :
    startOutboundCallValidation (some "123") = ⟨false, "INVALID_PHONE", none⟩ :=
  (outboundCall_validation_amended (some "123")).1 (by decide)

/-- Counterexample to C9 as stated: the request string "+12 345 678" is not
valid E.164 by the claim's rule (it contains characters other than the plus
sign and digits), yet the dispatcher does not reject it: the number is
normalized and dispatched to "+12345678". -/
theorem outboundCall_validation_counterexample :
    specValidE164 "+12 345 678" = false ∧
    startOutboundCallValidation (some "+12 345 678") =
      ⟨true, "SIMULATED", some "+12345678"⟩ :=
  ⟨by decide, by decide⟩

/-- round2 fixes any quantity that is an integer number of hundredths. -/
theorem round2_of_eq_intCast_div {q : ℚ} (k : ℤ) (hq : q = (k : ℚ) / 100) :
    round2 q = q := by rw [hq, round2_intCast_div]

/-- Clamping between two hundredth-representable bounds and rounding to two
decimals stays between the bounds. -/
theorem round2_clamped (lo hi x : ℚ) (hlohi : lo ≤ hi)
    (hlo : round2 lo = lo) (hhi : round2 hi = hi) :
    lo ≤ round2 (max lo (min hi x)) ∧ round2 (max lo (min hi x)) ≤ hi := by
  constructor
  · calc lo = round2 lo := hlo.symm
      _ ≤ round2 (max lo (min hi x)) := round2_mono (le_max_left _ _)
  · have h : max lo (min hi x) ≤ hi := max_le hlohi (min_le_left _ _)
    calc round2 (max lo (min hi x)) ≤ round2 hi := round2_mono h
      _ = hi := hhi

/-- The rule evaluator clamps to [1, 10] and [0.05, 0.92] before rounding,
so its outputs are bounded. -/
theorem evaluateByRules_bounds (lead : Lead) (strategy response : String) :
    1 ≤ (evaluateByRules lead strategy response).score ∧
    (evaluateByRules lead strategy response).score ≤ 10 ∧
    0.05 ≤ (evaluateByRules lead strategy response).conversionProbability ∧
    (evaluateByRules lead strategy response).conversionProbability ≤ 0.95 := by
  obtain ⟨x, hx⟩ : ∃ x : ℚ, evaluateByRules lead strategy response =
      ⟨round2 (max 1 (min 10 x)),
        round2 (max 0.05 (min 0.92 ((max 1 (min 10 x) - 3) / 8))), "rule", none⟩ :=
    ⟨_, rfl⟩
  rw [hx]
  have h1 := round2_clamped 1 10 x (by norm_num)
    (round2_of_eq_intCast_div 100 (by norm_num))
    (round2_of_eq_intCast_div 1000 (by norm_num))
  have h2 := round2_clamped 0.05 0.92 ((max 1 (min 10 x) - 3) / 8) (by norm_num)
    (round2_of_eq_intCast_div 5 (by norm_num))
    (round2_of_eq_intCast_div 92 (by norm_num))
  exact ⟨h1.1, h1.2, h2.1, le_trans h2.2 (by norm_num)⟩

/-- A successfully normalized evaluator payload is bounded. -/
theorem normalizeScoring_bounds {raw : Option RawScoring} {sc : Scoring}
    (h : normalizeScoring raw = some sc) :
    1 ≤ sc.score ∧ sc.score ≤ 10 ∧
    0.05 ≤ sc.conversionProbability ∧ sc.conversionProbability ≤ 0.95 := by
  cases raw with
  | none => exact Option.noConfusion h
  | some r =>
    rw [normalizeScoring] at h
    cases hs : r.score with
    | none => rw [hs] at h; exact Option.noConfusion h
    | some s =>
      cases hp : r.conversionProbability with
      | none => rw [hs, hp] at h; exact Option.noConfusion h
      | some p =>
        rw [hs, hp] at h
        cases h
        have h1 := round2_clamped 1 10 s (by norm_num)
          (round2_of_eq_intCast_div 100 (by norm_num))
          (round2_of_eq_intCast_div 1000 (by norm_num))
        have h2 := round2_clamped 0.05 0.95 p (by norm_num)
          (round2_of_eq_intCast_div 5 (by norm_num))
          (round2_of_eq_intCast_div 95 (by norm_num))
        exact ⟨h1.1, h1.2, h2.1, h2.2⟩

/-- A successful primary-path evaluation carries a normalized payload, so it
is bounded as well. -/
theorem evaluateByLlm_ok_bounds {net : LlmNetOutcome} {v : EvalResult}
    (h : evaluateByLlm net = .ok v) :
    1 ≤ v.score ∧ v.score ≤ 10 ∧
    0.05 ≤ v.conversionProbability ∧ v.conversionProbability ≤ 0.95 := by
  cases net with
  | requestFailed e => simp [evaluateByLlm] at h
  | httpError status body => simp [evaluateByLlm] at h
  | bodyNotJson body => simp [evaluateByLlm] at h
  | payload content json =>
    rw [evaluateByLlm] at h
    cases hn : normalizeScoring json with
    | none => rw [hn] at h; exact Except.noConfusion h
    | some norm =>
      rw [hn] at h
      cases h
      exact normalizeScoring_bounds hn

/-- Claim C10 (amended): whenever the primary evaluator path fails — request
failure (timeout or network error), HTTP error, non-JSON response body, or a
payload from which no finite score and conversionProbability can be
extracted — the adaptive evaluation returns the deterministic rule-based
result for the same input, tagged with the fallback provenance and carrying
the original error text as its notes; it is a total function, so it never
throws.  Each of those outcomes is indeed a failure of the primary path.  A
payload with finite values, in or out of range, is not a failure: it is
clamped into range and returned with the primary llm provenance.  And every
result, through any environment and any network outcome, has score in
[1, 10] and conversion probability in [0.05, 0.95]. -/
theorem evaluateLeadAdaptive_fallback_clamp_bounds (lead : Lead)
    (strategy response : String) :
    (∀ (net : LlmNetOutcome) (e : String), evaluateByLlm net = .error e →
      evaluateLeadAdaptive true net lead strategy response =
        { evaluateByRules lead strategy response with
            notes := some e, source := "rule_fallback" }) ∧
    (∀ err, ∃ e, evaluateByLlm (.requestFailed err) = .error e) ∧
    (∀ status body, ∃ e, evaluateByLlm (.httpError status body) = .error e) ∧
    (∀ body, ∃ e, evaluateByLlm (.bodyNotJson body) = .error e) ∧
    (∀ content, ∃ e, evaluateByLlm (.payload content none) = .error e) ∧
    (∀ content (r : RawScoring), normalizeScoring (some r) = none →
      ∃ e, evaluateByLlm (.payload content (some r)) = .error e) ∧
    (∀ content (sc pr : ℚ) (nt : Option String),
      evaluateLeadAdaptive true (.payload content (some ⟨some sc, some pr, nt⟩))
          lead strategy response =
        { score := round2 (max 1 (min 10 sc))
          conversionProbability := round2 (max 0.05 (min 0.95 pr))
          source := "llm"
          notes := nt.map (fun n => jsTake n 300) }) ∧
    (∀ (useLlm : Bool) (net' : LlmNetOutcome),
      1 ≤ (evaluateLeadAdaptive useLlm net' lead strategy response).score ∧
      (evaluateLeadAdaptive useLlm net' lead strategy response).score ≤ 10 ∧
      0.05 ≤ (evaluateLeadAdaptive useLlm net' lead strategy
        response).conversionProbability ∧
      (evaluateLeadAdaptive useLlm net' lead strategy
        response).conversionProbability ≤ 0.95) := by
  refine ⟨?_, ?_, ?_, ?_, ?_, ?_, ?_, ?_⟩
  · intro net e hfail
    simp [evaluateLeadAdaptive, hfail]
  · intro err
    exact ⟨_, rfl⟩
  · intro status body
    exact ⟨_, rfl⟩
  · intro body
    exact ⟨_, rfl⟩
  · intro content
    exact ⟨_, rfl⟩
  · intro content r hr
    refine ⟨"LLM returned invalid scoring payload: " ++ jsTake content 400, ?_⟩
    rw [evaluateByLlm, hr]
  · intro content sc pr nt
    rfl
  · intro useLlm net'
    cases useLlm with
    | false =>
      have hdef : evaluateLeadAdaptive false net' lead strategy response =
          evaluateByRules lead strategy response := rfl
      rw [hdef]
      exact evaluateByRules_bounds lead strategy response
    | true =>
      cases hllm : evaluateByLlm net' with
      | ok v =>
        have hdef : evaluateLeadAdaptive true net' lead strategy response = v := by
          simp [evaluateLeadAdaptive, hllm]
        rw [hdef]
        exact evaluateByLlm_ok_bounds hllm
      | error e' =>
        have hdef : evaluateLeadAdaptive true net' lead strategy response =
            { evaluateByRules lead strategy response with
                notes := some e', source := "rule_fallback" } := by
          simp [evaluateLeadAdaptive, hllm]
        rw [hdef]
        exact evaluateByRules_bounds lead strategy response

/-- Witness for C10 (amended): a timed-out request falls back to the rule
result tagged rule_fallback with the error text as notes. -/
theorem evaluateLeadAdaptive_fallback_clamp_bounds_witness :
    evaluateLeadAdaptive true (.requestFailed "timeout") sampleLead "consultative"
        "hi" =
      { evaluateByRules sampleLead "consultative" "hi" with
          notes := some "LLM request failed: timeout", source := "rule_fallback" } :=
  (evaluateLeadAdaptive_fallback_clamp_bounds sampleLead "consultative" "hi").1
    (.requestFailed "timeout") "LLM request failed: timeout" rfl

/-- Counterexample to C10 as stated: a finite but out-of-range payload —
score 42 (above 10) and conversionProbability 0.99 (above 0.95) — does not
trigger the fallback: the evaluation clamps it into range and returns it
with the primary llm provenance, not the rule-based result tagged with the
fallback provenance. -/
theorem evaluateLeadAdaptive_outOfRange_counterexample :
    (10 : ℚ) < 42 ∧ (0.95 : ℚ) < 0.99 ∧
    evaluateLeadAdaptive true
        (.payload "score 42 conversionProbability 0.99"
          (some ⟨some 42, some 0.99, none⟩)) sampleLead "consultative" "hi" =
      { score := 10, conversionProbability := 0.95, source := "llm",
        notes := none } ∧
    (evaluateLeadAdaptive true
        (.payload "score 42 conversionProbability 0.99"
          (some ⟨some 42, some 0.99, none⟩)) sampleLead "consultative"
        "hi").source ≠ "rule_fallback" := by
  have h1 : round2 (max 1 (min 10 (42 : ℚ))) = 10 := by
    rw [min_eq_left (by norm_num : (10 : ℚ) ≤ 42),
      max_eq_right (by norm_num : (1 : ℚ) ≤ 10)]
    exact round2_of_eq_intCast_div 1000 (by norm_num)
  have h2 : round2 (max 0.05 (min 0.95 (0.99 : ℚ))) = 0.95 := by
    rw [min_eq_left (by norm_num : (0.95 : ℚ) ≤ 0.99),
      max_eq_right (by norm_num : (0.05 : ℚ) ≤ 0.95)]
    exact round2_of_eq_intCast_div 95 (by norm_num)
  have hdef : evaluateLeadAdaptive true
      (.payload "score 42 conversionProbability 0.99"
        (some ⟨some 42, some 0.99, none⟩)) sampleLead "consultative" "hi" =
      { score := round2 (max 1 (min 10 (42 : ℚ)))
        conversionProbability := round2 (max 0.05 (min 0.95 (0.99 : ℚ)))
        source := "llm"
        notes := none } := rfl
  have h3 : evaluateLeadAdaptive true
      (.payload "score 42 conversionProbability 0.99"
        (some ⟨some 42, some 0.99, none⟩)) sampleLead "consultative" "hi" =
      { score := 10, conversionProbability := 0.95, source := "llm",
        notes := none } := by
    rw [hdef, h1, h2]
  refine ⟨by norm_num, by norm_num, h3, ?_⟩
  rw [h3]
  decide

end Ruya
